import Mathlib

/-!
Verification of the kestrel ray tracer core against its specification.

The development shallowly embeds the C++ sources: machine integers are
modelled as `ℕ` with explicit reduction `% 2 ^ 64` / `% 2 ^ 32` where the
C++ types wrap; `float` arithmetic in the geometric kernel is modelled as
exact real arithmetic (ℝ); the single place where the *rounding* of a
float conversion is itself the property under study (`PCG32::next_float`)
is modelled bit-exactly over `ℕ`/`ℚ` with IEEE-754 round-to-nearest-even
at 24 bits of significand.
-/

namespace Kestrel

/-! ## PCG32 (include/pcg32.h), modelled exactly over ℕ -/

/-- Modulus of the 64-bit state arithmetic. -/
def U64 : ℕ := 2 ^ 64

/-- Modulus of the 32-bit output arithmetic. -/
def U32 : ℕ := 2 ^ 32

/-- The LCG multiplier `6364136223846793005ULL` used in `PCG32::next`. -/
def pcgMultiplier : ℕ := 6364136223846793005

/-- State of the generator: `uint64_t state; uint64_t inc;`. -/
structure PCG32 where
  state : ℕ
  inc : ℕ

/-- State advance of `PCG32::next`:
`state = oldstate * 6364136223846793005ULL + inc` (wrapping at 2⁶⁴). -/
def PCG32.step (g : PCG32) : PCG32 :=
  { g with state := (g.state * pcgMultiplier + g.inc) % U64 }

/-- Output function of `PCG32::next` applied to the pre-advance state:
`xorshifted = (uint32_t)(((oldstate >> 18u) ^ oldstate) >> 27u)`,
`rot = (uint32_t)(oldstate >> 59u)`,
result `(xorshifted >> rot) | (xorshifted << ((-rot) & 31))`.
For `rot < 32` the C expression `(-rot) & 31` equals `(32 - rot) % 32`. -/
def pcgOutput (oldstate : ℕ) : ℕ :=
  let xorshifted := (((oldstate >>> 18) ^^^ oldstate) >>> 27) % U32
  let rot := oldstate >>> 59
  ((xorshifted >>> rot) ||| ((xorshifted <<< ((32 - rot) % 32)) % U32)) % U32

/-- `PCG32::next()`: returns the output derived from the old state and the
advanced generator. -/
def PCG32.next (g : PCG32) : ℕ × PCG32 :=
  (pcgOutput g.state, g.step)

/-- Default seed `0x853c49e6748fea9bULL` of the constructor. -/
def pcgDefaultSeed : ℕ := 0x853c49e6748fea9b

/-- Default stream `0xa02bdbf7bb3c0a7ULL` of the constructor. -/
def pcgDefaultStream : ℕ := 0xa02bdbf7bb3c0a7

/-- The constructor `PCG32(seed, stream)`:
`state = 0; inc = (stream << 1u) | 1u; next(); state += seed; next();`. -/
def PCG32.init (seed stream : ℕ) : PCG32 :=
  let g0 : PCG32 := ⟨0, ((stream <<< 1) ||| 1) % U64⟩
  let g1 := g0.step
  let g2 : PCG32 := { g1 with state := (g1.state + seed) % U64 }
  g2.step

/-- Round `u` to a multiple of `2 ^ k`, half to even (the IEEE-754 default
rounding used by `static_cast<float>` on an integer). -/
def roundEvenAt (u k : ℕ) : ℕ :=
  let q := u / 2 ^ k
  let r := u % 2 ^ k
  if 2 * r > 2 ^ k ∨ (2 * r = 2 ^ k ∧ q % 2 = 1) then (q + 1) * 2 ^ k
  else q * 2 ^ k

/-- The value of `static_cast<float>(u)` for `0 ≤ u < 2³²`: a `float` has a
24-bit significand, so `u` is rounded (to nearest, ties to even) at the
precision determined by its magnitude. -/
def floatOfUInt32 (u : ℕ) : ℕ :=
  if u < 2 ^ 24 then u
  else if u < 2 ^ 25 then roundEvenAt u 1
  else if u < 2 ^ 26 then roundEvenAt u 2
  else if u < 2 ^ 27 then roundEvenAt u 3
  else if u < 2 ^ 28 then roundEvenAt u 4
  else if u < 2 ^ 29 then roundEvenAt u 5
  else if u < 2 ^ 30 then roundEvenAt u 6
  else if u < 2 ^ 31 then roundEvenAt u 7
  else roundEvenAt u 8

/-- `PCG32::next_float()`:
`static_cast<float>(next()) / static_cast<float>(0x100000000ULL)`.
The divisor converts exactly to `2³²`, and dividing a float by a power of
two is exact (no further rounding in the range at hand), so the returned
float is exactly `floatOfUInt32 (next output) / 2³²`, represented in ℚ. -/
def PCG32.nextFloat (g : PCG32) : ℚ × PCG32 :=
  let r := g.next
  ((floatOfUInt32 r.1 : ℚ) / (2 ^ 32 : ℚ), r.2)

/-! ## Parallel scanline driver (src/kestrel.cpp, `render_worker`)

Each worker repeatedly performs `j = next_row.fetch_add(1)` on the shared
atomic row cursor and exits when `j >= image_height`; otherwise it writes
every pixel `j * image_width + i` for `0 ≤ i < image_width` of its claimed
row.  Atomicity of `fetch_add` means every counter value is handed to
exactly one worker; an arbitrary function `owner : ℕ → Fin T` records which
worker received which counter value, covering every interleaving. -/

/-- The rows claimed by worker `t`: those `j < height` whose `fetch_add`
ticket went to `t`. -/
def claimedRows (height T : ℕ) (owner : ℕ → Fin T) (t : Fin T) : List ℕ :=
  (List.range height).filter fun j => owner j = t

/-- The pixel indices written by worker `t`: for every claimed row `j`, the
inner loop writes `pixels[j * image_width + i]` for `i = 0, …, width-1`. -/
def writtenPixels (width height T : ℕ) (owner : ℕ → Fin T) (t : Fin T) : List ℕ :=
  (claimedRows height T owner t).flatMap fun j =>
    (List.range width).map fun i => j * width + i

/-! ## Vector algebra (src/vec3.cpp), modelled over ℝ -/

noncomputable section

/-- The 3-component `float` vector; components modelled as reals. -/
@[ext]
structure Vec3 where
  x : ℝ
  y : ℝ
  z : ℝ

/-- Componentwise addition `Vec3::operator+`. -/
def Vec3.add (a b : Vec3) : Vec3 := ⟨a.x + b.x, a.y + b.y, a.z + b.z⟩

/-- Componentwise subtraction `Vec3::operator-`. -/
def Vec3.sub (a b : Vec3) : Vec3 := ⟨a.x - b.x, a.y - b.y, a.z - b.z⟩

/-- Scalar multiplication `Vec3::operator*(float)`. -/
def Vec3.mulScalar (a : Vec3) (t : ℝ) : Vec3 := ⟨a.x * t, a.y * t, a.z * t⟩

/-- Componentwise multiplication `Vec3::operator*(const Vec3 &)`. -/
def Vec3.cmul (a b : Vec3) : Vec3 := ⟨a.x * b.x, a.y * b.y, a.z * b.z⟩

/-- Scalar division `Vec3::operator/(float)`. -/
def Vec3.divScalar (a : Vec3) (t : ℝ) : Vec3 := ⟨a.x / t, a.y / t, a.z / t⟩

/-- Dot product `Vec3::dot`. -/
def Vec3.dot (a b : Vec3) : ℝ := a.x * b.x + a.y * b.y + a.z * b.z

/-- Cross product `Vec3::cross`. -/
def Vec3.cross (a b : Vec3) : Vec3 :=
  ⟨a.y * b.z - a.z * b.y, a.z * b.x - a.x * b.z, a.x * b.y - a.y * b.x⟩

/-- `Vec3::length_squared`: `x*x + y*y + z*z`. -/
def Vec3.length_squared (v : Vec3) : ℝ := v.x * v.x + v.y * v.y + v.z * v.z

/-- `Vec3::length`: `std::sqrt(x*x + y*y + z*z)`. -/
def Vec3.length (v : Vec3) : ℝ := Real.sqrt (v.x * v.x + v.y * v.y + v.z * v.z)

/-- `Vec3::normalized`: guards `len == 0.0f` and returns the zero vector in
that case, otherwise divides each component by the length. -/
def Vec3.normalized (v : Vec3) : Vec3 :=
  let len := v.length
  if len = 0 then ⟨0, 0, 0⟩
  else ⟨v.x / len, v.y / len, v.z / len⟩

/-- Free function `reflect(v, n) = v - 2.0f * Vec3::dot(v, n) * n`. -/
def reflect (v n : Vec3) : Vec3 := v.sub (n.mulScalar (2 * Vec3.dot v n))

/-! ## Ray, materials, hit record -/

/-- `Ray { Point3 origin; Vec3 direction; }`. -/
structure Ray where
  origin : Vec3
  direction : Vec3

/-- `Ray::at(t) = origin + t * direction`. -/
def Ray.at (r : Ray) (t : ℝ) : Vec3 := r.origin.add (r.direction.mulScalar t)

/-- The two concrete material kinds (`Lambertian`, `Conductor`), a closed
sum standing for the virtual `Material` base class.  Pointers to material
objects are modelled by the material value itself. -/
inductive Material where
  | lambertian (albedo : Vec3)
  | conductor (albedo : Vec3)

/-- `Material::reflectivity`: `Lambertian` passes `0.0f` to the base
constructor, `Conductor` passes `1.0f`. -/
def Material.reflectivity : Material → ℝ
  | .lambertian _ => 0
  | .conductor _ => 1

/-- Virtual `Material::get_color`: the Lambertian divides its albedo by the
literal `3.14159265358979323846f`, the conductor returns the albedo. -/
def Material.get_color : Material → Vec3
  | .lambertian albedo => albedo.divScalar 3.14159265358979323846
  | .conductor albedo => albedo

/-- `HitRecord` (include/kestrel.h).  `material` is a `const Material *`
initialised to `nullptr`, modelled as an `Option`. -/
structure HitRecord where
  point : Vec3
  normal : Vec3
  t : ℝ
  front_face : Bool
  material : Option Material

/-- A default-constructed `HitRecord()`: only `material` is initialised (to
`nullptr`); the remaining fields are uninitialised in C++ and modelled as
zeros (no verified property depends on their initial values). -/
def HitRecord.init : HitRecord := ⟨⟨0, 0, 0⟩, ⟨0, 0, 0⟩, 0, false, none⟩

/-- `HitRecord::set_face_normal`:
`front_face = Vec3::dot(ray.direction, outward_normal) < 0;`
`normal = front_face ? outward_normal : -1.0f * outward_normal;`. -/
def HitRecord.set_face_normal (rec : HitRecord) (ray : Ray) (outward_normal : Vec3) :
    HitRecord :=
  let front_face : Bool := decide (Vec3.dot ray.direction outward_normal < 0)
  { rec with
    front_face := front_face
    normal := if front_face then outward_normal else outward_normal.mulScalar (-1) }

/-! ## Shapes

Each `hit` method takes the caller's record by mutable reference and
returns a success flag; this is modelled by threading the record value:
`hit` consumes the incoming record and returns the flag together with the
record as it stands when the function returns. -/

/-- `Sphere { Point3 center; float radius; }` plus the `Shape` base's
material pointer. -/
structure Sphere where
  center : Vec3
  radius : ℝ
  material : Material

/-- The record written by `Sphere::hit` on success before returning `true`:
`rec.t = root; rec.point = ray.at(rec.t);`
`outward_normal = (rec.point - center) / radius;`
`rec.set_face_normal(ray, outward_normal);` (the material field of the
incoming record is left alone — `Sphere::hit` never writes it). -/
def Sphere.record (s : Sphere) (ray : Ray) (root : ℝ) (rec : HitRecord) : HitRecord :=
  let rec1 := { rec with t := root, point := ray.at root }
  rec1.set_face_normal ray ((rec1.point.sub s.center).divScalar s.radius)

/-- `Sphere::hit` (src/sphere.cpp): quadratic-formula intersection with the
half-b convention.  The C++ mutates a single `root` variable (`root =
root1; if out of range { root = root2; if out of range return false; }`);
the same control flow is written here with the two roots named. -/
def Sphere.hit (s : Sphere) (ray : Ray) (t_min t_max : ℝ) (rec : HitRecord) :
    Bool × HitRecord :=
  let oc := ray.origin.sub s.center
  let a := ray.direction.length_squared
  let half_b := Vec3.dot oc ray.direction
  let c := oc.length_squared - s.radius * s.radius
  let discriminant := half_b * half_b - a * c
  if discriminant < 0 then (false, rec)
  else
    let sqrtd := Real.sqrt discriminant
    let root1 := (-half_b - sqrtd) / a
    if root1 < t_min ∨ t_max < root1 then
      let root2 := (-half_b + sqrtd) / a
      if root2 < t_min ∨ t_max < root2 then (false, rec)
      else (true, s.record ray root2 rec)
    else (true, s.record ray root1 rec)

/-- `Triangle { Point3 v0, v1, v2; }` plus the `Shape` base's material. -/
structure Triangle where
  v0 : Vec3
  v1 : Vec3
  v2 : Vec3
  material : Material

/-- The record written by `Triangle::hit` on success: every field of the
incoming record is overwritten (`t`, `point`, the face normal data and the
material), so the result does not depend on the incoming record. -/
def Triangle.record (tri : Triangle) (ray : Ray) (t : ℝ) : HitRecord :=
  let edge1 := tri.v1.sub tri.v0
  let edge2 := tri.v2.sub tri.v0
  let rec1 : HitRecord :=
    { HitRecord.init with t := t, point := ray.at t }
  { rec1.set_face_normal ray ((Vec3.cross edge1 edge2).normalized) with
    material := some tri.material }

/-- `Triangle::hit`, the variant with the barycentric-`u` range check
(the `triangle.cpp` snapshot that also carries `scale`/`translate`).
Möller–Trumbore with `eps = 1e-8f`. -/
def Triangle.hit (tri : Triangle) (ray : Ray) (t_min t_max : ℝ) (rec : HitRecord) :
    Bool × HitRecord :=
  let eps : ℝ := 1e-8
  let edge1 := tri.v1.sub tri.v0
  let edge2 := tri.v2.sub tri.v0
  let h := Vec3.cross ray.direction edge2
  let det := Vec3.dot edge1 h
  if det > -eps ∧ det < eps then (false, rec)
  else
    let inv_det := 1 / det
    let s := ray.origin.sub tri.v0
    let u := inv_det * Vec3.dot s h
    let s_cross_e1 := Vec3.cross s edge1
    if (u < 0 ∧ |u| > eps) ∨ (u > 1 ∧ |u - 1| > eps) then (false, rec)
    else
      let v := inv_det * Vec3.dot ray.direction s_cross_e1
      if (v < 0 ∧ |v| > eps) ∨ (u + v > 1 ∧ |u + v - 1| > eps) then (false, rec)
      else
        let t := inv_det * Vec3.dot edge2 s_cross_e1
        if t < t_min ∨ t > t_max then (false, rec)
        else (true, tri.record ray t)

/-- `Triangle::hit`, the other snapshot of `triangle.cpp` in the repository:
identical to `Triangle.hit` except that the range check on the barycentric
coordinate `u` is absent (only `v < 0` and `u + v > 1` are rejected). -/
def Triangle.hitAlt (tri : Triangle) (ray : Ray) (t_min t_max : ℝ) (rec : HitRecord) :
    Bool × HitRecord :=
  let eps : ℝ := 1e-8
  let edge1 := tri.v1.sub tri.v0
  let edge2 := tri.v2.sub tri.v0
  let h := Vec3.cross ray.direction edge2
  let det := Vec3.dot edge1 h
  if det > -eps ∧ det < eps then (false, rec)
  else
    let inv_det := 1 / det
    let s := ray.origin.sub tri.v0
    let u := inv_det * Vec3.dot s h
    let s_cross_e1 := Vec3.cross s edge1
    let v := inv_det * Vec3.dot ray.direction s_cross_e1
    if (v < 0 ∧ |v| > eps) ∨ (u + v > 1 ∧ |u + v - 1| > eps) then (false, rec)
    else
      let t := inv_det * Vec3.dot edge2 s_cross_e1
      if t < t_min ∨ t > t_max then (false, rec)
      else (true, tri.record ray t)

/-- The barycentric coordinate `u = inv_det * Vec3::dot(s, h)` computed by
both `Triangle::hit` snapshots, extracted for stating properties. -/
def Triangle.baryU (tri : Triangle) (ray : Ray) : ℝ :=
  let edge1 := tri.v1.sub tri.v0
  let edge2 := tri.v2.sub tri.v0
  let h := Vec3.cross ray.direction edge2
  let det := Vec3.dot edge1 h
  let inv_det := 1 / det
  let s := ray.origin.sub tri.v0
  inv_det * Vec3.dot s h

/-- `Triangle::scale(Vec3 factor)` (triangle.cpp):
`v0 = v0 * factor.x; v1 = v1 * factor.y; v2 = v2 * factor.z;` — note that
each vertex is multiplied *uniformly* by a different single component of
`factor` (`Vec3::operator*(float)`), exactly as the source does. -/
def Triangle.scale (tri : Triangle) (factor : Vec3) : Triangle :=
  { tri with
    v0 := tri.v0.mulScalar factor.x
    v1 := tri.v1.mulScalar factor.y
    v2 := tri.v2.mulScalar factor.z }

/-- `Triangle::translate(Vec3 offset)`: adds `offset` to each vertex. -/
def Triangle.translate (tri : Triangle) (offset : Vec3) : Triangle :=
  { tri with
    v0 := tri.v0.add offset
    v1 := tri.v1.add offset
    v2 := tri.v2.add offset }

/-- `PlyMesh`: an aggregate of triangles sharing one material. -/
structure PlyMesh where
  triangles : List Triangle
  material : Material

/-- `PlyMesh::hit` (plymesh.cpp): linear scan over the triangles against a
shrinking `[t_min, closest_so_far]`, each probe using a fresh
default-constructed `temp_rec`; on success `closest_so_far = temp_rec.t;
rec = temp_rec; rec.material = material;`.  The fold state carries
`(hit_any, closest_so_far, rec)`. -/
def PlyMesh.hit (m : PlyMesh) (ray : Ray) (t_min t_max : ℝ) (rec : HitRecord) :
    Bool × HitRecord :=
  let final := m.triangles.foldl
    (fun st tri =>
      let temp := Triangle.hit tri ray t_min st.2.1 HitRecord.init
      if temp.1 then (true, temp.2.t, { temp.2 with material := some m.material })
      else st)
    (false, t_max, rec)
  (final.1, final.2.2)

/-- The closed sum of concrete shapes standing for the virtual `Shape`
base class referenced by `Scene::objects`. -/
inductive Shape where
  | sphere (s : Sphere)
  | triangle (tr : Triangle)
  | mesh (m : PlyMesh)

/-- Virtual dispatch of `Shape::hit`. -/
def Shape.hit : Shape → Ray → ℝ → ℝ → HitRecord → Bool × HitRecord
  | .sphere s => s.hit
  | .triangle tr => tr.hit
  | .mesh m => m.hit

/-- The `Shape::material` pointer of each concrete shape. -/
def Shape.material : Shape → Material
  | .sphere s => s.material
  | .triangle tr => tr.material
  | .mesh m => m.material

/-- `Light { Vec3 position; Vec3 intensity; }`. -/
structure Light where
  position : Vec3
  intensity : Vec3

/-- `Light::sample_direction(point) = (position - point).normalized()`. -/
def Light.sample_direction (l : Light) (point : Vec3) : Vec3 :=
  (l.position.sub point).normalized

/-- `Light::get_intensity()`. -/
def Light.get_intensity (l : Light) : Vec3 := l.intensity

/-- `Scene`: the shape and light collections (the camera member is not
consumed by any verified operation and is omitted). -/
structure Scene where
  objects : List Shape
  lights : List Light

/-- `Scene::hit` (scene.cpp): scans every object against the shrinking
interval `[t_min, closest_so_far]`, threading the caller's record through
every probe; on success `hit_anything = true; closest_so_far = rec.t;
rec.material = obj.material;`. -/
def Scene.hit (sc : Scene) (ray : Ray) (t_min t_max : ℝ) (rec : HitRecord) :
    Bool × HitRecord :=
  let final := sc.objects.foldl
    (fun st obj =>
      let r := Shape.hit obj ray t_min st.2.1 st.2.2
      if r.1 then (true, r.2.t, { r.2 with material := some (Shape.material obj) })
      else (st.1, st.2.1, r.2))
    (false, t_max, rec)
  (final.1, final.2.2)

/-- The radiance estimator `ray_color` (src/kestrel.cpp).  `depth` is a
non-negative `int`; the `depth <= 0` guard is the `Nat` zero case.  The
shadow loop runs `shadow_samples = 2` iterations; `sample_direction` is
deterministic, so the loop is a plain fold.  A `nullptr` material
dereference (impossible after a successful `Scene::hit`) is modelled by a
junk default. -/
def ray_color (scene : Scene) : Ray → ℕ → Vec3
  | _, 0 => ⟨0, 0, 0⟩
  | ray, depth + 1 =>
    let res := scene.hit ray 0.001 1000 HitRecord.init
    if res.1 then
      let hrec := res.2
      let mat := hrec.material.getD (Material.lambertian ⟨0, 0, 0⟩)
      let final_color := scene.lights.foldl
        (fun acc scene_light =>
          let shadow_factor := (List.range 2).foldl
            (fun sf _ =>
              let light_dir := scene_light.sample_direction hrec.point
              let light_sample_pos := scene_light.position
              let light_distance := (light_sample_pos.sub hrec.point).length
              let shadow_origin := hrec.point.add (hrec.normal.mulScalar 0.001)
              let shadow_ray : Ray := ⟨shadow_origin, light_dir⟩
              if (scene.hit shadow_ray 0.001 (light_distance - 0.001) HitRecord.init).1
              then sf else sf + 1)
            (0 : ℝ)
          let shadow_factor := shadow_factor / 2
          let light_dir := (scene_light.position.sub hrec.point).normalized
          let cos_theta := max 0 (Vec3.dot hrec.normal light_dir)
          let distance := (scene_light.position.sub hrec.point).length
          let direct_lighting :=
            (((mat.get_color.mulScalar cos_theta).cmul
                scene_light.get_intensity).mulScalar shadow_factor).divScalar
              (distance * distance + 1e-4)
          acc.add direct_lighting)
        (⟨0, 0, 0⟩ : Vec3)
      let reflected_color :=
        if mat.reflectivity > 0 then
          let incident_dir := ray.direction.normalized
          let reflected_dir := incident_dir.sub
            (hrec.normal.mulScalar (2 * Vec3.dot incident_dir hrec.normal))
          let reflected_ray : Ray := ⟨hrec.point.add (hrec.normal.mulScalar 0.001),
            reflected_dir⟩
          ((ray_color scene reflected_ray depth).mulScalar mat.reflectivity).cmul
            mat.get_color
        else ⟨0, 0, 0⟩
      (final_color.mulScalar (1 - mat.reflectivity)).add reflected_color
    else ⟨0, 0, 0⟩

/-! ## Analysis helpers: the ray parameter each shape selects

These definitions are not transcriptions of separate source functions;
they name the `t` value that the corresponding `hit` method settles on, to
state and prove properties of the `hit` methods above. -/

/-- The root selected by `Sphere::hit` on `[t_min, t_max]`, `none` when the
method reports no intersection. -/
def Sphere.tSel (s : Sphere) (ray : Ray) (t_min t_max : ℝ) : Option ℝ :=
  let oc := ray.origin.sub s.center
  let a := ray.direction.length_squared
  let half_b := Vec3.dot oc ray.direction
  let c := oc.length_squared - s.radius * s.radius
  let discriminant := half_b * half_b - a * c
  if discriminant < 0 then none
  else
    let sqrtd := Real.sqrt discriminant
    let root1 := (-half_b - sqrtd) / a
    if root1 < t_min ∨ t_max < root1 then
      let root2 := (-half_b + sqrtd) / a
      if root2 < t_min ∨ t_max < root2 then none
      else some root2
    else some root1

/-- The ray parameter accepted by `Triangle::hit` (the snapshot with the
`u` range check), `none` when the method reports no intersection. -/
def Triangle.tSel (tri : Triangle) (ray : Ray) (t_min t_max : ℝ) : Option ℝ :=
  let eps : ℝ := 1e-8
  let edge1 := tri.v1.sub tri.v0
  let edge2 := tri.v2.sub tri.v0
  let h := Vec3.cross ray.direction edge2
  let det := Vec3.dot edge1 h
  if det > -eps ∧ det < eps then none
  else
    let inv_det := 1 / det
    let s := ray.origin.sub tri.v0
    let u := inv_det * Vec3.dot s h
    let s_cross_e1 := Vec3.cross s edge1
    if (u < 0 ∧ |u| > eps) ∨ (u > 1 ∧ |u - 1| > eps) then none
    else
      let v := inv_det * Vec3.dot ray.direction s_cross_e1
      if (v < 0 ∧ |v| > eps) ∨ (u + v > 1 ∧ |u + v - 1| > eps) then none
      else
        let t := inv_det * Vec3.dot edge2 s_cross_e1
        if t < t_min ∨ t > t_max then none
        else some t

/-- The closest triangle parameter reported by `PlyMesh::hit`. -/
def PlyMesh.tSel (m : PlyMesh) (ray : Ray) (t_min t_max : ℝ) : Option ℝ :=
  let res := m.hit ray t_min t_max HitRecord.init
  if res.1 then some res.2.t else none

/-- Dispatch of the selected parameter over the shape kinds. -/
def Shape.tSel : Shape → Ray → ℝ → ℝ → Option ℝ
  | .sphere s => s.tSel
  | .triangle tr => tr.tSel
  | .mesh m => m.tSel

/-- The common shape of the two closest-hit scans (`Scene::hit` and
`PlyMesh::hit`): fold a probe function over a collection, threading
`(hit_anything, closest_so_far, rec)` and post-processing the record of a
successful probe. -/
def hitFold {ι : Type} (hitFn : ι → ℝ → HitRecord → Bool × HitRecord)
    (post : ι → HitRecord → HitRecord) (st : Bool × ℝ × HitRecord) (L : List ι) :
    Bool × ℝ × HitRecord :=
  L.foldl
    (fun st i =>
      let r := hitFn i st.2.1 st.2.2
      if r.1 then (true, r.2.t, post i r.2) else (st.1, st.2.1, r.2))
    st

/-- The probe function of `PlyMesh::hit` seen as a `hitFold` step: a fresh
`temp_rec` is probed and the caller's record is kept on failure. -/
def meshProbe (ray : Ray) (t_min : ℝ) (tri : Triangle) (c : ℝ) (r : HitRecord) :
    Bool × HitRecord :=
  let temp := Triangle.hit tri ray t_min c HitRecord.init
  (temp.1, if temp.1 then temp.2 else r)

/-- The per-hit record update of `PlyMesh::hit`:
`rec.material = material;` after `rec = temp_rec;`. -/
def meshPost (m : PlyMesh) : Triangle → HitRecord → HitRecord :=
  fun _ r => { r with material := some m.material }

/-- The local `half_b = Vec3::dot(oc, ray.direction)` of `Sphere::hit`. -/
def Sphere.halfB (s : Sphere) (ray : Ray) : ℝ :=
  Vec3.dot (ray.origin.sub s.center) ray.direction

/-- The local `c = oc.length_squared() - radius * radius` of `Sphere::hit`. -/
def Sphere.quadC (s : Sphere) (ray : Ray) : ℝ :=
  (ray.origin.sub s.center).length_squared - s.radius * s.radius

/-- The local `discriminant = half_b * half_b - a * c` of `Sphere::hit`. -/
def Sphere.disc (s : Sphere) (ray : Ray) : ℝ :=
  s.halfB ray * s.halfB ray - ray.direction.length_squared * s.quadC ray

/-- The smaller candidate root `(-half_b - sqrtd) / a` of `Sphere::hit`. -/
def Sphere.root1 (s : Sphere) (ray : Ray) : ℝ :=
  (-s.halfB ray - Real.sqrt (s.disc ray)) / ray.direction.length_squared

/-- The larger candidate root `(-half_b + sqrtd) / a` of `Sphere::hit`. -/
def Sphere.root2 (s : Sphere) (ray : Ray) : ℝ :=
  (-s.halfB ray + Real.sqrt (s.disc ray)) / ray.direction.length_squared

end

namespace Fold

variable {ι : Type} (hitFn : ι → ℝ → HitRecord → Bool × HitRecord)
variable (post : ι → HitRecord → HitRecord)

/-- Unfolding of the closest-hit fold over a cons cell. -/
theorem cons_eq (st : Bool × ℝ × HitRecord) (i : ι) (L : List ι) :
    hitFold hitFn post st (i :: L) =
      hitFold hitFn post
        (if (hitFn i st.2.1 st.2.2).1 then
          (true, (hitFn i st.2.1 st.2.2).2.t, post i (hitFn i st.2.1 st.2.2).2)
         else (st.1, st.2.1, (hitFn i st.2.1 st.2.2).2)) L := rfl

/-- `hit_anything` never reverts to `false` once set. -/
theorem stays_true (L : List ι) :
    ∀ st : Bool × ℝ × HitRecord, st.1 = true → (hitFold hitFn post st L).1 = true := by
  induction L with
  | nil => intro st h; exact h
  | cons i L ih =>
    intro st h
    rw [cons_eq]
    by_cases hr : (hitFn i st.2.1 st.2.2).1 = true
    · simp only [hr, if_true]
      exact ih _ rfl
    · simp only [hr, if_false]
      exact ih _ h

/-- If every probe preserves the record on failure, a scan that reports no
hit leaves the whole state untouched. -/
theorem false_preserves
    (hfail : ∀ (i : ι) (c : ℝ) (r : HitRecord),
      (hitFn i c r).1 = false → (hitFn i c r).2 = r)
    (L : List ι) :
    ∀ st : Bool × ℝ × HitRecord,
      (hitFold hitFn post st L).1 = false → hitFold hitFn post st L = st := by
  induction L with
  | nil => intro st _; rfl
  | cons i L ih =>
    intro st hfalse
    rw [cons_eq] at hfalse ⊢
    by_cases hr : (hitFn i st.2.1 st.2.2).1 = true
    · exfalso
      simp only [hr, if_true] at hfalse
      rw [stays_true hitFn post L _ rfl] at hfalse
      exact Bool.true_eq_false.mp hfalse
    · simp only [hr, if_false] at hfalse ⊢
      have hr2 : (hitFn i st.2.1 st.2.2).2 = st.2.2 :=
        hfail i st.2.1 st.2.2 (Bool.not_eq_true _ |>.mp hr)
      rw [hr2] at hfalse ⊢
      exact ih (st.1, st.2.1, st.2.2) hfalse

/-- The full behaviour of the closest-hit scan, stated against a selection
function `sel` describing each probe: the scan reports a hit exactly when
some element selects a parameter on the *initial* interval, the final
`closest_so_far` is a lower bound of every selected parameter, and on a
a hit the final record carries the winning parameter and the
post-processed material of a winning element. -/
theorem spec (sel : ι → ℝ → Option ℝ) (matOf : ι → Material)
    (hsel1 : ∀ (i : ι) (c : ℝ) (r : HitRecord), (hitFn i c r).1 = (sel i c).isSome)
    (hsel2 : ∀ (i : ι) (c : ℝ) (r : HitRecord) (t : ℝ),
      sel i c = some t → ((hitFn i c r).2).t = t)
    (hfail : ∀ (i : ι) (c : ℝ) (r : HitRecord),
      (hitFn i c r).1 = false → (hitFn i c r).2 = r)
    (hres : ∀ (i : ι) (c cc t : ℝ), c ≤ cc →
      (sel i c = some t ↔ sel i cc = some t ∧ t ≤ c))
    (hle : ∀ (i : ι) (c t : ℝ), sel i c = some t → t ≤ c)
    (hpost : ∀ (i : ι) (r : HitRecord),
      (post i r).t = r.t ∧ (post i r).material = some (matOf i)) :
    ∀ (L : List ι) (ha₀ : Bool) (c₀ : ℝ) (rec₀ : HitRecord),
      ((hitFold hitFn post (ha₀, c₀, rec₀) L).1
          = (ha₀ || L.any fun i => (sel i c₀).isSome))
      ∧ (∀ j ∈ L, ∀ t, sel j c₀ = some t →
          (hitFold hitFn post (ha₀, c₀, rec₀) L).2.1 ≤ t)
      ∧ (hitFold hitFn post (ha₀, c₀, rec₀) L).2.1 ≤ c₀
      ∧ ((hitFold hitFn post (ha₀, c₀, rec₀) L = (ha₀, c₀, rec₀)
            ∧ ∀ j ∈ L, sel j c₀ = none)
        ∨ (∃ i ∈ L, sel i c₀ = some (hitFold hitFn post (ha₀, c₀, rec₀) L).2.1
            ∧ (hitFold hitFn post (ha₀, c₀, rec₀) L).2.2.t
                = (hitFold hitFn post (ha₀, c₀, rec₀) L).2.1
            ∧ (hitFold hitFn post (ha₀, c₀, rec₀) L).2.2.material
                = some (matOf i))) := by
  intro L
  induction L with
  | nil =>
    intro ha₀ c₀ rec₀
    refine ⟨by simp [hitFold], by simp, le_refl _, Or.inl ⟨rfl, by simp⟩⟩
  | cons i L ih =>
    intro ha₀ c₀ rec₀
    rcases hs : sel i c₀ with _ | t₁
    · -- the head probe misses: the state passes through unchanged
      have hb : (hitFn i c₀ rec₀).1 = false := by
        rw [hsel1 i c₀ rec₀, hs]; rfl
      have hrec : (hitFn i c₀ rec₀).2 = rec₀ := hfail i c₀ rec₀ hb
      have hstep : hitFold hitFn post (ha₀, c₀, rec₀) (i :: L)
          = hitFold hitFn post (ha₀, c₀, rec₀) L := by
        rw [cons_eq]
        simp only [hb, Bool.false_eq_true, if_false, hrec]
      obtain ⟨ih1, ih2, ih3, ih4⟩ := ih ha₀ c₀ rec₀
      rw [hstep]
      refine ⟨?_, ?_, ih3, ?_⟩
      · simp [List.any_cons, hs, ih1]
      · intro j hj t ht
        rcases List.mem_cons.mp hj with hj | hj
        · subst hj; rw [hs] at ht; cases ht
        · exact ih2 j hj t ht
      · rcases ih4 with ⟨heq, hnone⟩ | hwin
        · refine Or.inl ⟨heq, ?_⟩
          intro j hj
          rcases List.mem_cons.mp hj with hj | hj
          · subst hj; exact hs
          · exact hnone j hj
        · obtain ⟨i', hi', h1, h2, h3⟩ := hwin
          exact Or.inr ⟨i', List.mem_cons_of_mem _ hi', h1, h2, h3⟩
    · -- the head probe hits at t₁
      have hb : (hitFn i c₀ rec₀).1 = true := by
        rw [hsel1 i c₀ rec₀, hs]; rfl
      have ht1 : ((hitFn i c₀ rec₀).2).t = t₁ := hsel2 i c₀ rec₀ t₁ hs
      have ht1c : t₁ ≤ c₀ := hle i c₀ t₁ hs
      have hstep : hitFold hitFn post (ha₀, c₀, rec₀) (i :: L)
          = hitFold hitFn post (true, t₁, post i (hitFn i c₀ rec₀).2) L := by
        rw [cons_eq]
        simp only [hb, if_true, ht1]
      obtain ⟨ih1, ih2, ih3, ih4⟩ := ih true t₁ (post i (hitFn i c₀ rec₀).2)
      rw [hstep]
      refine ⟨?_, ?_, le_trans ih3 ht1c, ?_⟩
      · rw [ih1]
        simp [List.any_cons, hs]
      · intro j hj t ht
        rcases List.mem_cons.mp hj with hj | hj
        · subst hj
          rw [hs] at ht
          exact (Option.some_inj.mp ht) ▸ ih3
        · by_cases htle : t ≤ t₁
          · exact ih2 j hj t ((hres j t₁ c₀ t ht1c).mpr ⟨ht, htle⟩)
          · exact le_trans ih3 (le_of_not_le htle)
      · rcases ih4 with ⟨heq, _⟩ | hwin
        · refine Or.inr ⟨i, List.mem_cons_self i L, ?_, ?_, ?_⟩
          · rw [heq]; rw [hs]
          · rw [heq]
            exact (hpost i _).1.trans ht1
          · rw [heq]
            exact (hpost i _).2
        · obtain ⟨i', hi', h1, h2, h3⟩ := hwin
          refine Or.inr ⟨i', List.mem_cons_of_mem _ hi', ?_, h2, h3⟩
          exact ((hres i' t₁ c₀ _ ht1c).mp h1).1

/-- The hit flag and the final `closest_so_far` do not depend on the
incoming record. -/
theorem state_indep (sel : ι → ℝ → Option ℝ)
    (hsel1 : ∀ (i : ι) (c : ℝ) (r : HitRecord), (hitFn i c r).1 = (sel i c).isSome)
    (hsel2 : ∀ (i : ι) (c : ℝ) (r : HitRecord) (t : ℝ),
      sel i c = some t → ((hitFn i c r).2).t = t) :
    ∀ (L : List ι) (ha : Bool) (c : ℝ) (r r' : HitRecord),
      (hitFold hitFn post (ha, c, r) L).1 = (hitFold hitFn post (ha, c, r') L).1
      ∧ (hitFold hitFn post (ha, c, r) L).2.1 = (hitFold hitFn post (ha, c, r') L).2.1 := by
  intro L
  induction L with
  | nil => intro ha c r r'; exact ⟨rfl, rfl⟩
  | cons i L ih =>
    intro ha c r r'
    rcases hs : sel i c with _ | t₁
    · have hb : (hitFn i c r).1 = false := by rw [hsel1 i c r, hs]; rfl
      have hb' : (hitFn i c r').1 = false := by rw [hsel1 i c r', hs]; rfl
      rw [cons_eq, cons_eq]
      simp only [hb, hb', Bool.false_eq_true, if_false]
      exact ih ha c _ _
    · have hb : (hitFn i c r).1 = true := by rw [hsel1 i c r, hs]; rfl
      have hb' : (hitFn i c r').1 = true := by rw [hsel1 i c r', hs]; rfl
      rw [cons_eq, cons_eq]
      simp only [hb, hb', if_true, hsel2 i c r t₁ hs, hsel2 i c r' t₁ hs]
      exact ih true t₁ _ _

end Fold

/-! ## Shape-level characterizations -/

theorem Vec3.length_squared_nonneg (v : Vec3) : 0 ≤ v.length_squared := by
  have hx := mul_self_nonneg v.x
  have hy := mul_self_nonneg v.y
  have hz := mul_self_nonneg v.z
  unfold Vec3.length_squared
  linarith

theorem Vec3.length_squared_pos (v : Vec3) (h : v ≠ ⟨0, 0, 0⟩) :
    0 < v.length_squared := by
  rcases lt_or_eq_of_le (Vec3.length_squared_nonneg v) with hlt | heq
  · exact hlt
  · exfalso
    apply h
    have hx := mul_self_nonneg v.x
    have hy := mul_self_nonneg v.y
    have hz := mul_self_nonneg v.z
    have hsum : v.x * v.x + v.y * v.y + v.z * v.z = 0 := by
      unfold Vec3.length_squared at heq
      linarith
    have hx0 : v.x = 0 := by
      have : v.x * v.x = 0 := by linarith
      exact mul_self_eq_zero.mp this
    have hy0 : v.y = 0 := by
      have : v.y * v.y = 0 := by linarith
      exact mul_self_eq_zero.mp this
    have hz0 : v.z = 0 := by
      have : v.z * v.z = 0 := by linarith
      exact mul_self_eq_zero.mp this
    ext <;> assumption

theorem triangle_record_t (tri : Triangle) (ray : Ray) (t : ℝ) :
    (tri.record ray t).t = t := rfl

theorem triangle_record_material (tri : Triangle) (ray : Ray) (t : ℝ) :
    (tri.record ray t).material = some tri.material := rfl

/-- `Triangle::hit` fully described by its selection function: misses leave
the record alone, a hit at `t` writes the canonical record. -/
theorem triangle_hit_eq (tri : Triangle) (ray : Ray) (lo hi : ℝ) (rec : HitRecord) :
    tri.hit ray lo hi rec =
      (match tri.tSel ray lo hi with
        | none => (false, rec)
        | some t => (true, tri.record ray t)) := by
  simp only [Triangle.hit, Triangle.tSel]
  split_ifs <;> rfl

/-- The parameter accepted by `Triangle::hit` lies below the interval cap. -/
theorem triangle_tSel_le (tri : Triangle) (ray : Ray) (lo c t : ℝ)
    (h : tri.tSel ray lo c = some t) : t ≤ c := by
  simp only [Triangle.tSel] at h
  split_ifs at h with h1 h2 h3 h4
  rw [Option.some_inj] at h
  subst h
  push_neg at h4
  exact h4.2

/-- Shrinking the far end of the interval filters the accepted parameter:
the guards before the range check do not mention the interval, and the
parameter itself is fixed by the geometry. -/
theorem triangle_tSel_restrict (tri : Triangle) (ray : Ray) (lo : ℝ) {c cc t : ℝ}
    (hcc : c ≤ cc) :
    tri.tSel ray lo c = some t ↔ tri.tSel ray lo cc = some t ∧ t ≤ c := by
  simp only [Triangle.tSel]
  split_ifs with h1 h2 h3 h4 h5 h6
  · simp
  · simp
  · simp
  · -- rejected on both intervals
    simp
  · -- rejected on the small interval, accepted on the large one
    push_neg at h5
    simp only [false_iff]
    rintro ⟨hsome, hlec⟩
    rw [Option.some_inj] at hsome
    subst hsome
    rcases h4 with h4 | h4
    · exact absurd h4 (not_lt.mpr h5.1)
    · exact absurd h4 (not_lt.mpr hlec)
  · -- accepted on the small interval, rejected on the large one: impossible
    push_neg at h4
    exact absurd h6 (by push_neg; exact ⟨h4.1, le_trans h4.2 hcc⟩)
  · -- accepted on both intervals
    push_neg at h4
    constructor
    · intro h
      refine ⟨h, ?_⟩
      rw [Option.some_inj] at h
      subst h
      exact h4.2
    · exact fun h => h.1

theorem sphere_record_t (s : Sphere) (ray : Ray) (root : ℝ) (rec : HitRecord) :
    (s.record ray root rec).t = root := rfl

/-- `Sphere::hit` fully described by its selection function. -/
theorem sphere_hit_eq (s : Sphere) (ray : Ray) (lo hi : ℝ) (rec : HitRecord) :
    s.hit ray lo hi rec =
      (match s.tSel ray lo hi with
        | none => (false, rec)
        | some t => (true, s.record ray t rec)) := by
  simp only [Sphere.hit, Sphere.tSel]
  split_ifs <;> rfl

theorem sphere_tSel_le (s : Sphere) (ray : Ray) (lo c t : ℝ)
    (h : s.tSel ray lo c = some t) : t ≤ c := by
  simp only [Sphere.tSel] at h
  split_ifs at h with h1 h2 h3
  · rw [Option.some_inj] at h; subst h; push_neg at h3; exact h3.2
  · rw [Option.some_inj] at h; subst h; push_neg at h2; exact h2.2

/-- Root selection of `Sphere::hit` as a predicate: the smaller root wins
when it lies in range, else the larger root when it lies in range. -/
theorem Sphere.tSel_eq_some_iff (s : Sphere) (ray : Ray) (lo hi t : ℝ) :
    s.tSel ray lo hi = some t ↔
      0 ≤ s.disc ray ∧
        ((t = s.root1 ray ∧ lo ≤ s.root1 ray ∧ s.root1 ray ≤ hi)
          ∨ (t = s.root2 ray ∧ (s.root1 ray < lo ∨ hi < s.root1 ray)
              ∧ lo ≤ s.root2 ray ∧ s.root2 ray ≤ hi)) := by
  simp only [Sphere.tSel, Sphere.disc, Sphere.halfB, Sphere.quadC, Sphere.root1,
    Sphere.root2]
  split_ifs with h1 h2 h3
  · -- negative discriminant
    simp only [false_iff]
    rintro ⟨h0, -⟩
    linarith
  · -- both roots rejected
    simp only [false_iff]
    rintro ⟨-, ⟨-, hlo, hhi⟩ | ⟨-, -, hlo, hhi⟩⟩
    · rcases h2 with h | h <;> linarith
    · rcases h3 with h | h <;> linarith
  · -- the larger root accepted
    push_neg at h3
    constructor
    · intro h
      rw [Option.some_inj] at h
      exact ⟨not_lt.mp h1, Or.inr ⟨h.symm, h2, h3.1, h3.2⟩⟩
    · rintro ⟨-, ⟨-, hlo, hhi⟩ | ⟨ht, -, -, -⟩⟩
      · rcases h2 with h | h <;> linarith
      · rw [ht]
  · -- the smaller root accepted
    push_neg at h2
    constructor
    · intro h
      rw [Option.some_inj] at h
      exact ⟨not_lt.mp h1, Or.inl ⟨h.symm, h2.1, h2.2⟩⟩
    · rintro ⟨-, ⟨ht, -, -⟩ | ⟨-, hor, -, -⟩⟩
      · rw [ht]
      · rcases hor with h | h <;> linarith [h2.1, h2.2]

/-- The two candidate roots are ordered when the ray direction is
non-degenerate. -/
theorem Sphere.root1_le_root2 (s : Sphere) (ray : Ray)
    (hd : ray.direction ≠ ⟨0, 0, 0⟩) : s.root1 ray ≤ s.root2 ray := by
  have ha : 0 < ray.direction.length_squared := Vec3.length_squared_pos _ hd
  have hs := Real.sqrt_nonneg (s.disc ray)
  unfold Sphere.root1 Sphere.root2
  exact (div_le_div_iff_of_pos_right ha).mpr (by linarith)

/-- Shrinking the far end of the interval filters the selected root. -/
theorem sphere_tSel_restrict (s : Sphere) (ray : Ray) (lo : ℝ)
    (hd : ray.direction ≠ ⟨0, 0, 0⟩) {c cc t : ℝ} (hcc : c ≤ cc) :
    s.tSel ray lo c = some t ↔ s.tSel ray lo cc = some t ∧ t ≤ c := by
  have hr := Sphere.root1_le_root2 s ray hd
  rw [Sphere.tSel_eq_some_iff, Sphere.tSel_eq_some_iff]
  constructor
  · rintro ⟨hdisc, ⟨ht, hlo, hhi⟩ | ⟨ht, hor, hlo, hhi⟩⟩
    · exact ⟨⟨hdisc, Or.inl ⟨ht, hlo, le_trans hhi hcc⟩⟩, by rw [ht]; exact hhi⟩
    · rcases hor with hor | hor
      · exact ⟨⟨hdisc, Or.inr ⟨ht, Or.inl hor, hlo, le_trans hhi hcc⟩⟩,
          by rw [ht]; exact hhi⟩
      · exact absurd (le_trans hr hhi) (not_le.mpr hor)
  · rintro ⟨⟨hdisc, ⟨ht, hlo, hhi⟩ | ⟨ht, hor, hlo, hhi⟩⟩, htc⟩
    · exact ⟨hdisc, Or.inl ⟨ht, hlo, by rw [← ht]; exact htc⟩⟩
    · rcases hor with hor | hor
      · exact ⟨hdisc, Or.inr ⟨ht, Or.inl hor, hlo, by rw [← ht]; exact htc⟩⟩
      · refine absurd (le_trans hr ?_) (not_le.mpr hor)
        rw [← ht]
        exact le_trans htc hcc

/-! ## Mesh-level characterization via the generic fold -/

theorem meshProbe_fst (ray : Ray) (lo : ℝ) (tri : Triangle) (c : ℝ) (r : HitRecord) :
    (meshProbe ray lo tri c r).1 = (Triangle.tSel tri ray lo c).isSome := by
  simp only [meshProbe, triangle_hit_eq]
  cases Triangle.tSel tri ray lo c <;> rfl

theorem meshProbe_t (ray : Ray) (lo : ℝ) (tri : Triangle) (c : ℝ) (r : HitRecord)
    (t : ℝ) (ht : Triangle.tSel tri ray lo c = some t) :
    ((meshProbe ray lo tri c r).2).t = t := by
  simp only [meshProbe, triangle_hit_eq, ht]
  rfl

theorem meshProbe_fail (ray : Ray) (lo : ℝ) (tri : Triangle) (c : ℝ) (r : HitRecord)
    (hb : (meshProbe ray lo tri c r).1 = false) : (meshProbe ray lo tri c r).2 = r := by
  simp only [meshProbe] at hb ⊢
  simp [hb]

/-- `PlyMesh::hit` is the generic closest-hit fold over its triangles. -/
theorem plymesh_hit_eq_fold (m : PlyMesh) (ray : Ray) (lo hi : ℝ) (rec : HitRecord) :
    m.hit ray lo hi rec =
      ((hitFold (meshProbe ray lo) (meshPost m) (false, hi, rec) m.triangles).1,
        (hitFold (meshProbe ray lo) (meshPost m) (false, hi, rec) m.triangles).2.2) := by
  unfold PlyMesh.hit hitFold meshPost
  have hfold := List.foldl_ext
    (fun (st : Bool × ℝ × HitRecord) (tri : Triangle) =>
      let temp := Triangle.hit tri ray lo st.2.1 HitRecord.init
      if temp.1 then (true, temp.2.t, { temp.2 with material := some m.material })
      else st)
    (fun (st : Bool × ℝ × HitRecord) (tri : Triangle) =>
      let r := meshProbe ray lo tri st.2.1 st.2.2
      if r.1 then (true, r.2.t, { r.2 with material := some m.material })
      else (st.1, st.2.1, r.2))
    ((false, hi, rec) : Bool × ℝ × HitRecord) (l := m.triangles) ?_
  · rw [hfold]
  · intro st tri _
    simp only [meshProbe]
    by_cases hb : (Triangle.hit tri ray lo st.2.1 HitRecord.init).1 = true
    · simp [hb]
    · simp [hb]

theorem PlyMesh.tSel_isSome (m : PlyMesh) (ray : Ray) (lo hi : ℝ) :
    (m.tSel ray lo hi).isSome = (m.hit ray lo hi HitRecord.init).1 := by
  unfold PlyMesh.tSel
  cases hb : (m.hit ray lo hi HitRecord.init).1 <;> simp [hb]

theorem plymesh_hit_fst (m : PlyMesh) (ray : Ray) (lo hi : ℝ) (rec : HitRecord) :
    (m.hit ray lo hi rec).1 = (m.tSel ray lo hi).isSome := by
  rw [PlyMesh.tSel_isSome, plymesh_hit_eq_fold, plymesh_hit_eq_fold]
  exact (Fold.state_indep (meshProbe ray lo) (meshPost m)
    (fun tri c => Triangle.tSel tri ray lo c)
    (fun i c r => meshProbe_fst ray lo i c r)
    (fun i c r t ht => meshProbe_t ray lo i c r t ht)
    m.triangles false hi rec HitRecord.init).1

theorem plymesh_hit_fail (m : PlyMesh) (ray : Ray) (lo hi : ℝ) (rec : HitRecord)
    (hb : (m.hit ray lo hi rec).1 = false) : (m.hit ray lo hi rec).2 = rec := by
  rw [plymesh_hit_eq_fold] at hb ⊢
  have hpres := Fold.false_preserves (meshProbe ray lo) (meshPost m)
    (fun i c r hfalse => meshProbe_fail ray lo i c r hfalse)
    m.triangles (false, hi, rec) hb
  rw [hpres]

theorem plymesh_hit_t (m : PlyMesh) (ray : Ray) (lo hi : ℝ) (rec : HitRecord) (t : ℝ)
    (ht : m.tSel ray lo hi = some t) : ((m.hit ray lo hi rec).2).t = t := by
  have hsome : (m.hit ray lo hi HitRecord.init).1 = true := by
    simp only [PlyMesh.tSel] at ht
    by_contra hb
    rw [Bool.not_eq_true] at hb
    rw [hb] at ht
    exact absurd ht (by simp)
  have htv : (m.hit ray lo hi HitRecord.init).2.t = t := by
    simp only [PlyMesh.tSel] at ht
    rw [hsome] at ht
    simp only [if_true] at ht
    exact (Option.some_inj.mp ht)
  have hind := Fold.state_indep (meshProbe ray lo) (meshPost m)
    (fun tri c => Triangle.tSel tri ray lo c)
    (fun i c r => meshProbe_fst ray lo i c r)
    (fun i c r t2 ht2 => meshProbe_t ray lo i c r t2 ht2)
    m.triangles false hi rec HitRecord.init
  have hspec := fun rec0 => Fold.spec (meshProbe ray lo) (meshPost m)
    (fun tri c => Triangle.tSel tri ray lo c) (fun _ => m.material)
    (fun i c r => meshProbe_fst ray lo i c r)
    (fun i c r t2 ht2 => meshProbe_t ray lo i c r t2 ht2)
    (fun i c r hfalse => meshProbe_fail ray lo i c r hfalse)
    (fun i c cc t2 hccc => triangle_tSel_restrict i ray lo hccc)
    (fun i c t2 ht2 => triangle_tSel_le i ray lo c t2 ht2)
    (fun i r => ⟨rfl, rfl⟩) m.triangles false hi rec0
  have hrec_eqt : ∀ rec0 : HitRecord,
      (hitFold (meshProbe ray lo) (meshPost m) (false, hi, rec0) m.triangles).1 = true →
      (hitFold (meshProbe ray lo) (meshPost m) (false, hi, rec0) m.triangles).2.2.t
        = (hitFold (meshProbe ray lo) (meshPost m) (false, hi, rec0) m.triangles).2.1 := by
    intro rec0 h1
    obtain ⟨-, -, -, hwin⟩ := hspec rec0
    rcases hwin with ⟨heq, -⟩ | ⟨-, -, -, h2, -⟩
    · rw [heq] at h1
      exact absurd h1 (by simp)
    · exact h2
  have hrecfold : (m.hit ray lo hi rec).1
      = (hitFold (meshProbe ray lo) (meshPost m) (false, hi, rec) m.triangles).1 := by
    rw [plymesh_hit_eq_fold]
  have hrec1 : (m.hit ray lo hi rec).1 = true := by
    rw [plymesh_hit_fst, PlyMesh.tSel_isSome, hsome]
  rw [plymesh_hit_eq_fold]
  have hinit1 : (hitFold (meshProbe ray lo) (meshPost m) (false, hi, HitRecord.init)
      m.triangles).1 = true := by
    rw [plymesh_hit_eq_fold] at hsome
    exact hsome
  rw [hrecfold] at hrec1
  rw [hrec_eqt rec hrec1, hind.2, ← hrec_eqt HitRecord.init hinit1]
  rw [plymesh_hit_eq_fold] at htv
  exact htv

theorem plymesh_tSel_le (m : PlyMesh) (ray : Ray) (lo c t : ℝ)
    (h : m.tSel ray lo c = some t) : t ≤ c := by
  have hsome : (m.hit ray lo c HitRecord.init).1 = true := by
    simp only [PlyMesh.tSel] at h
    by_contra hb
    rw [Bool.not_eq_true] at hb
    rw [hb] at h
    exact absurd h (by simp)
  have htv : (m.hit ray lo c HitRecord.init).2.t = t := by
    simp only [PlyMesh.tSel] at h
    rw [hsome] at h
    simp only [if_true] at h
    exact (Option.some_inj.mp h)
  obtain ⟨-, -, h3, hwin⟩ := Fold.spec (meshProbe ray lo) (meshPost m)
    (fun tri cl => Triangle.tSel tri ray lo cl) (fun _ => m.material)
    (fun i cl r => meshProbe_fst ray lo i cl r)
    (fun i cl r t2 ht2 => meshProbe_t ray lo i cl r t2 ht2)
    (fun i cl r hfalse => meshProbe_fail ray lo i cl r hfalse)
    (fun i cl cc t2 hccc => triangle_tSel_restrict i ray lo hccc)
    (fun i cl t2 ht2 => triangle_tSel_le i ray lo cl t2 ht2)
    (fun i r => ⟨rfl, rfl⟩) m.triangles false c HitRecord.init
  rw [plymesh_hit_eq_fold] at hsome htv
  rcases hwin with ⟨heq, -⟩ | ⟨-, -, -, heqt, -⟩
  · rw [heq] at hsome
    exact absurd hsome (by simp)
  · rw [← htv, heqt]
    exact h3

theorem PlyMesh.tSel_iff (m : PlyMesh) (ray : Ray) (lo hi t : ℝ) :
    m.tSel ray lo hi = some t ↔
      (m.hit ray lo hi HitRecord.init).1 = true
        ∧ (m.hit ray lo hi HitRecord.init).2.t = t := by
  simp only [PlyMesh.tSel]
  cases hb : (m.hit ray lo hi HitRecord.init).1 <;> simp [hb]

/-- Shrinking the far end of the interval filters the closest mesh hit. -/
theorem plymesh_tSel_restrict (m : PlyMesh) (ray : Ray) (lo : ℝ) {c cc t : ℝ}
    (hcc : c ≤ cc) :
    m.tSel ray lo c = some t ↔ m.tSel ray lo cc = some t ∧ t ≤ c := by
  have hspec := fun (hi : ℝ) => Fold.spec (meshProbe ray lo) (meshPost m)
    (fun tri cl => Triangle.tSel tri ray lo cl) (fun _ => m.material)
    (fun i cl r => meshProbe_fst ray lo i cl r)
    (fun i cl r t2 ht2 => meshProbe_t ray lo i cl r t2 ht2)
    (fun i cl r hfalse => meshProbe_fail ray lo i cl r hfalse)
    (fun i cl cl2 t2 hcl => triangle_tSel_restrict i ray lo hcl)
    (fun i cl t2 ht2 => triangle_tSel_le i ray lo cl t2 ht2)
    (fun i r => ⟨rfl, rfl⟩) m.triangles false hi HitRecord.init
  obtain ⟨s1c, s2c, s3c, s4c⟩ := hspec c
  obtain ⟨s1cc, s2cc, s3cc, s4cc⟩ := hspec cc
  rw [PlyMesh.tSel_iff, PlyMesh.tSel_iff, plymesh_hit_eq_fold, plymesh_hit_eq_fold]
  constructor
  · rintro ⟨hflag, htv⟩
    rcases s4c with ⟨heq, -⟩ | ⟨tri1, hmem1, hsel1, heqt1, -⟩
    · rw [heq] at hflag
      exact absurd hflag (by simp)
    · -- the winner on the small interval also wins on the large one
      have htc : t = (hitFold (meshProbe ray lo) (meshPost m)
          (false, c, HitRecord.init) m.triangles).2.1 := by
        rw [← htv, heqt1]
      obtain ⟨hsel1cc, hlec⟩ :=
        (triangle_tSel_restrict tri1 ray lo hcc).mp hsel1
      have hanycc : (m.triangles.any fun tri =>
          (Triangle.tSel tri ray lo cc).isSome) = true :=
        List.any_eq_true.mpr ⟨tri1, hmem1, by rw [hsel1cc]; rfl⟩
      have hflagcc : (hitFold (meshProbe ray lo) (meshPost m)
          (false, cc, HitRecord.init) m.triangles).1 = true := by
        rw [s1cc, hanycc]; rfl
      rcases s4cc with ⟨heq, -⟩ | ⟨tri2, hmem2, hsel2, heqt2, -⟩
      · rw [heq] at hflagcc
        exact absurd hflagcc (by simp)
      · have hle1 : (hitFold (meshProbe ray lo) (meshPost m)
            (false, cc, HitRecord.init) m.triangles).2.1 ≤ t := by
          apply s2cc tri1 hmem1
          rw [← htc] at hsel1cc
          exact hsel1cc
        have hle2 : t ≤ (hitFold (meshProbe ray lo) (meshPost m)
            (false, cc, HitRecord.init) m.triangles).2.1 := by
          rw [htc]
          apply s2c tri2 hmem2
          exact (triangle_tSel_restrict tri2 ray lo hcc).mpr
            ⟨hsel2, le_trans hle1 (by rw [htc]; exact s3c)⟩
        have heqv : (hitFold (meshProbe ray lo) (meshPost m)
            (false, cc, HitRecord.init) m.triangles).2.1 = t := le_antisymm hle1 hle2
        refine ⟨⟨hflagcc, by rw [heqt2, heqv]⟩, by rw [htc]; exact s3c⟩
  · rintro ⟨⟨hflagcc, htvcc⟩, htlec⟩
    rcases s4cc with ⟨heq, -⟩ | ⟨tri2, hmem2, hsel2, heqt2, -⟩
    · rw [heq] at hflagcc
      exact absurd hflagcc (by simp)
    · have htcc : t = (hitFold (meshProbe ray lo) (meshPost m)
          (false, cc, HitRecord.init) m.triangles).2.1 := by
        rw [← htvcc, heqt2]
      have hsel2c : Triangle.tSel tri2 ray lo c = some t :=
        (triangle_tSel_restrict tri2 ray lo hcc).mpr ⟨by rw [← htcc] at hsel2; exact hsel2, htlec⟩
      have hanyc : (m.triangles.any fun tri =>
          (Triangle.tSel tri ray lo c).isSome) = true :=
        List.any_eq_true.mpr ⟨tri2, hmem2, by rw [hsel2c]; rfl⟩
      have hflagc : (hitFold (meshProbe ray lo) (meshPost m)
          (false, c, HitRecord.init) m.triangles).1 = true := by
        rw [s1c, hanyc]; rfl
      rcases s4c with ⟨heq, -⟩ | ⟨tri1, hmem1, hsel1, heqt1, -⟩
      · rw [heq] at hflagc
        exact absurd hflagc (by simp)
      · have hle1 : (hitFold (meshProbe ray lo) (meshPost m)
            (false, c, HitRecord.init) m.triangles).2.1 ≤ t :=
          s2c tri2 hmem2 t hsel2c
        have hle2 : t ≤ (hitFold (meshProbe ray lo) (meshPost m)
            (false, c, HitRecord.init) m.triangles).2.1 := by
          rw [htcc]
          apply s2cc tri1 hmem1
          exact ((triangle_tSel_restrict tri1 ray lo hcc).mp hsel1).1
        exact ⟨hflagc, by rw [heqt1, le_antisymm hle1 hle2]⟩

/-! ## Shape-level dispatch of the characterizations -/

theorem shape_hit_fst (sh : Shape) (ray : Ray) (lo c : ℝ) (r : HitRecord) :
    (sh.hit ray lo c r).1 = (sh.tSel ray lo c).isSome := by
  cases sh with
  | sphere s =>
    simp only [Shape.hit, Shape.tSel]
    rw [sphere_hit_eq]
    cases s.tSel ray lo c <;> rfl
  | triangle tr =>
    simp only [Shape.hit, Shape.tSel]
    rw [triangle_hit_eq]
    cases tr.tSel ray lo c <;> rfl
  | mesh m =>
    simp only [Shape.hit, Shape.tSel]
    exact plymesh_hit_fst m ray lo c r

theorem shape_hit_t (sh : Shape) (ray : Ray) (lo c : ℝ) (r : HitRecord) (t : ℝ)
    (ht : sh.tSel ray lo c = some t) : ((sh.hit ray lo c r).2).t = t := by
  cases sh with
  | sphere s =>
    simp only [Shape.hit, Shape.tSel] at ht ⊢
    rw [sphere_hit_eq, ht]
    rfl
  | triangle tr =>
    simp only [Shape.hit, Shape.tSel] at ht ⊢
    rw [triangle_hit_eq, ht]
    rfl
  | mesh m =>
    simp only [Shape.hit, Shape.tSel] at ht ⊢
    exact plymesh_hit_t m ray lo c r t ht

theorem shape_hit_fail (sh : Shape) (ray : Ray) (lo c : ℝ) (r : HitRecord)
    (hb : (sh.hit ray lo c r).1 = false) : (sh.hit ray lo c r).2 = r := by
  cases sh with
  | sphere s =>
    simp only [Shape.hit] at hb ⊢
    rw [sphere_hit_eq] at hb ⊢
    cases h : s.tSel ray lo c
    · rfl
    · rw [h] at hb
      exact absurd hb (by simp)
  | triangle tr =>
    simp only [Shape.hit] at hb ⊢
    rw [triangle_hit_eq] at hb ⊢
    cases h : tr.tSel ray lo c
    · rfl
    · rw [h] at hb
      exact absurd hb (by simp)
  | mesh m =>
    simp only [Shape.hit] at hb ⊢
    exact plymesh_hit_fail m ray lo c r hb

theorem shape_tSel_restrict (sh : Shape) (ray : Ray) (lo : ℝ)
    (hd : ray.direction ≠ ⟨0, 0, 0⟩) {c cc t : ℝ} (hcc : c ≤ cc) :
    sh.tSel ray lo c = some t ↔ sh.tSel ray lo cc = some t ∧ t ≤ c := by
  cases sh with
  | sphere s => exact sphere_tSel_restrict s ray lo hd hcc
  | triangle tr => exact triangle_tSel_restrict tr ray lo hcc
  | mesh m => exact plymesh_tSel_restrict m ray lo hcc

theorem shape_tSel_le (sh : Shape) (ray : Ray) (lo c t : ℝ)
    (h : sh.tSel ray lo c = some t) : t ≤ c := by
  cases sh with
  | sphere s => exact sphere_tSel_le s ray lo c t h
  | triangle tr => exact triangle_tSel_le tr ray lo c t h
  | mesh m => exact plymesh_tSel_le m ray lo c t h


/-! ## Scene-level closest-hit theorem -/

/-- `Scene::hit` is the generic closest-hit fold over its objects. -/
theorem scene_hit_eq_fold (sc : Scene) (ray : Ray) (lo hi : ℝ) (rec : HitRecord) :
    sc.hit ray lo hi rec =
      ((hitFold (fun obj c r => Shape.hit obj ray lo c r)
          (fun obj r => { r with material := some (Shape.material obj) })
          (false, hi, rec) sc.objects).1,
        (hitFold (fun obj c r => Shape.hit obj ray lo c r)
          (fun obj r => { r with material := some (Shape.material obj) })
          (false, hi, rec) sc.objects).2.2) := rfl


/-- Claim C1: for every ray, every `t_min ≤ t_max` and every scene,
`Scene::hit` linearly scans the shapes against the shrinking interval
`[t_min, closest_so_far]`, returns `true` iff some shape hits within
`[t_min, t_max]`, and on success the returned record carries the minimal
hit parameter among all shapes, with its material overwritten by the
owning shape's material.  (The ray direction is assumed non-degenerate;
a zero direction makes the C++ quadratic produce NaNs, outside the real
model.) -/
theorem scene_hit_closest (sc : Scene) (ray : Ray) (t_min t_max : ℝ)
    (rec₀ : HitRecord) (hd : ray.direction ≠ ⟨0, 0, 0⟩) (hle : t_min ≤ t_max) :
    ((sc.hit ray t_min t_max rec₀).1 = true ↔
        ∃ sh ∈ sc.objects, (Shape.hit sh ray t_min t_max rec₀).1 = true)
    ∧ ((sc.hit ray t_min t_max rec₀).1 = true →
        (∃ sh ∈ sc.objects, (Shape.hit sh ray t_min t_max rec₀).1 = true
            ∧ ((Shape.hit sh ray t_min t_max rec₀).2).t
                = ((sc.hit ray t_min t_max rec₀).2).t
            ∧ ((sc.hit ray t_min t_max rec₀).2).material
                = some (Shape.material sh))
        ∧ ∀ sh ∈ sc.objects, (Shape.hit sh ray t_min t_max rec₀).1 = true →
            ((sc.hit ray t_min t_max rec₀).2).t
              ≤ ((Shape.hit sh ray t_min t_max rec₀).2).t) := by
  obtain ⟨s1, s2, s3, s4⟩ := Fold.spec (fun obj c r => Shape.hit obj ray t_min c r)
    (fun obj r => { r with material := some (Shape.material obj) })
    (fun obj c => Shape.tSel obj ray t_min c) (fun obj => Shape.material obj)
    (fun i c r => shape_hit_fst i ray t_min c r)
    (fun i c r t ht => shape_hit_t i ray t_min c r t ht)
    (fun i c r hb => shape_hit_fail i ray t_min c r hb)
    (fun i c cc t hc => shape_tSel_restrict i ray t_min hd hc)
    (fun i c t ht => shape_tSel_le i ray t_min c t ht)
    (fun i r => ⟨rfl, rfl⟩)
    sc.objects false t_max rec₀
  have hfst : (sc.hit ray t_min t_max rec₀).1
      = (hitFold (fun obj c r => Shape.hit obj ray t_min c r)
          (fun obj r => { r with material := some (Shape.material obj) })
          (false, t_max, rec₀) sc.objects).1 := by
    rw [scene_hit_eq_fold]
  have hsnd : (sc.hit ray t_min t_max rec₀).2
      = (hitFold (fun obj c r => Shape.hit obj ray t_min c r)
          (fun obj r => { r with material := some (Shape.material obj) })
          (false, t_max, rec₀) sc.objects).2.2 := by
    rw [scene_hit_eq_fold]
  constructor
  · rw [hfst, s1]
    simp only [Bool.false_or, List.any_eq_true]
    constructor
    · rintro ⟨i, hmem, hsome⟩
      refine ⟨i, hmem, ?_⟩
      rw [shape_hit_fst]
      exact hsome
    · rintro ⟨i, hmem, hflag⟩
      refine ⟨i, hmem, ?_⟩
      rw [← shape_hit_fst i ray t_min t_max rec₀]
      exact hflag
  · intro hsucc
    rw [hfst] at hsucc
    rcases s4 with ⟨heq, -⟩ | ⟨i, hmem, hsel, heqt, hmat⟩
    · rw [heq] at hsucc
      exact absurd hsucc (by simp)
    · constructor
      · refine ⟨i, hmem, ?_, ?_, ?_⟩
        · rw [shape_hit_fst, hsel]
          rfl
        · rw [shape_hit_t i ray t_min t_max rec₀ _ hsel, hsnd, heqt]
        · rw [hsnd]
          exact hmat
      · intro sh hmem2 hflag
        rw [shape_hit_fst] at hflag
        obtain ⟨t2, ht2⟩ := Option.isSome_iff_exists.mp hflag
        rw [hsnd, heqt, shape_hit_t sh ray t_min t_max rec₀ t2 ht2]
        exact s2 sh hmem2 t2 ht2


/-! ## Claim theorems -/

/-- Claim C3: `ray_color` at recursion depth 0 returns exactly black,
whatever the scene and the ray: the `depth <= 0` guard precedes every
scene access. -/
theorem ray_color_depth_zero_black (scene : Scene) (ray : Ray) :
    ray_color scene ray 0 = ⟨0, 0, 0⟩ := rfl

/-- Claim C7: `normalized` returns a unit-length vector on every non-zero
input, and maps the zero vector to the zero vector (the `len == 0` guard)
instead of dividing by zero. -/
theorem normalized_unit_or_zero (v : Vec3) :
    (v ≠ ⟨0, 0, 0⟩ → (v.normalized).length = 1)
    ∧ Vec3.normalized ⟨0, 0, 0⟩ = ⟨0, 0, 0⟩ := by
  constructor
  · intro hv
    have hS : 0 < v.x * v.x + v.y * v.y + v.z * v.z := by
      have := Vec3.length_squared_pos v hv
      simpa [Vec3.length_squared] using this
    have hlpos : 0 < v.length := by
      unfold Vec3.length
      exact Real.sqrt_pos.mpr hS
    have hll : v.length * v.length = v.x * v.x + v.y * v.y + v.z * v.z := by
      unfold Vec3.length
      exact Real.mul_self_sqrt (le_of_lt hS)
    set L := v.length with hL
    simp only [Vec3.normalized]
    rw [← hL, if_neg hlpos.ne']
    simp only [Vec3.length]
    have hcomp : v.x / L * (v.x / L) + v.y / L * (v.y / L) + v.z / L * (v.z / L) = 1 := by
      field_simp
      linarith [hll]
    rw [hcomp, Real.sqrt_one]
  · simp [Vec3.normalized, Vec3.length]

/-- Witness for C7 at the concrete vector `(0, 3, 4)`. -/
theorem normalized_unit_or_zero_witness :
    ((⟨0, 3, 4⟩ : Vec3) ≠ ⟨0, 0, 0⟩)
    ∧ (Vec3.normalized ⟨0, 3, 4⟩).length = 1 := by
  have hne : (⟨0, 3, 4⟩ : Vec3) ≠ ⟨0, 0, 0⟩ := by
    intro h
    have := congrArg Vec3.y h
    norm_num at this
  exact ⟨hne, (normalized_unit_or_zero ⟨0, 3, 4⟩).1 hne⟩

/-- Claim C8 counterexample: with the non-unit normal `(2, 0, 0)` the
double reflection of `(1, 0, 0)` is `(49, 0, 0)`, not the original
vector — `reflect` is not an involution for arbitrary normals. -/
theorem reflect_not_involutive_nonunit :
    reflect (reflect ⟨1, 0, 0⟩ ⟨2, 0, 0⟩) ⟨2, 0, 0⟩ ≠ (⟨1, 0, 0⟩ : Vec3) := by
  intro h
  have hx := congrArg Vec3.x h
  simp only [reflect, Vec3.dot, Vec3.sub, Vec3.mulScalar] at hx
  norm_num at hx

/-- Claim C8 (amended): `reflect` is an involution in its first argument
for every *unit* normal (`n · n = 1`), the only case arising in the
renderer, which always reflects about normalized normals. -/
theorem reflect_involutive_unit (v n : Vec3) (hn : Vec3.dot n n = 1) :
    reflect (reflect v n) n = v := by
  simp only [Vec3.dot] at hn
  simp only [reflect, Vec3.dot, Vec3.sub, Vec3.mulScalar]
  ext
  · show v.x - n.x * _ - n.x * _ = v.x
    linear_combination (4 * (v.x * n.x + v.y * n.y + v.z * n.z) * n.x) * hn
  · show v.y - n.y * _ - n.y * _ = v.y
    linear_combination (4 * (v.x * n.x + v.y * n.y + v.z * n.z) * n.y) * hn
  · show v.z - n.z * _ - n.z * _ = v.z
    linear_combination (4 * (v.x * n.x + v.y * n.y + v.z * n.z) * n.z) * hn

/-- Witness for the amended C8 at `v = (3, 4, 5)`, `n = (1, 0, 0)`. -/
theorem reflect_involutive_unit_witness :
    Vec3.dot ⟨1, 0, 0⟩ ⟨1, 0, 0⟩ = 1
    ∧ reflect (reflect ⟨3, 4, 5⟩ ⟨1, 0, 0⟩) ⟨1, 0, 0⟩ = (⟨3, 4, 5⟩ : Vec3) := by
  have h1 : Vec3.dot ⟨1, 0, 0⟩ ⟨1, 0, 0⟩ = 1 := by
    simp [Vec3.dot]
  exact ⟨h1, reflect_involutive_unit ⟨3, 4, 5⟩ ⟨1, 0, 0⟩ h1⟩

/-- Claim C6 (code evaluation): `Triangle::scale` multiplies each vertex
*uniformly* by a different single component of the factor (`v0` by
`factor.x`, `v1` by `factor.y`, `v2` by `factor.z`) instead of applying
the componentwise scale to every vertex: scaling the one-point triangle
`(1,1,1)` by `(1,2,3)` moves `v1` to `(2,2,2)`, while the componentwise
product of `(1,1,1)` with the factor (what the triangle.h documentation
describes) is `(1,2,3)`. -/
theorem triangle_scale_mixes_components :
    (Triangle.scale ⟨⟨1, 1, 1⟩, ⟨1, 1, 1⟩, ⟨1, 1, 1⟩, Material.lambertian ⟨0, 0, 0⟩⟩
        ⟨1, 2, 3⟩).v1 = ⟨2, 2, 2⟩
    ∧ (⟨1, 1, 1⟩ : Vec3).cmul ⟨1, 2, 3⟩ = ⟨1, 2, 3⟩
    ∧ (∀ (tri : Triangle) (offset : Vec3),
        (tri.translate offset).v0 = tri.v0.add offset
        ∧ (tri.translate offset).v1 = tri.v1.add offset
        ∧ (tri.translate offset).v2 = tri.v2.add offset
        ∧ (tri.translate offset).material = tri.material)
    ∧ (∀ (tri : Triangle) (factor : Vec3),
        (tri.scale factor).material = tri.material) := by
  refine ⟨?_, ?_, fun tri offset => ⟨rfl, rfl, rfl, rfl⟩, fun tri factor => rfl⟩
  · simp only [Triangle.scale, Vec3.mulScalar]
    norm_num
  · simp only [Vec3.cmul]
    norm_num


/-- Claim C2: `Sphere::hit` reports no intersection when the discriminant
`half_b² - a·c` is negative; with a non-negative discriminant it selects
the smaller quadratic root when that lies in `[t_min, t_max]`, falls back
to the larger root, and reports no intersection when both lie outside; on
a hit the outward normal fed to `set_face_normal` is
`(point - center) / radius`.  The non-degeneracy hypothesis on the ray
direction orders the two roots (and excludes the NaN-producing `a = 0`
division of the C++ code, outside the real model). -/
theorem sphere_hit_root_selection (s : Sphere) (ray : Ray) (t_min t_max : ℝ)
    (rec : HitRecord) (hd : ray.direction ≠ ⟨0, 0, 0⟩) :
    (s.disc ray < 0 → (s.hit ray t_min t_max rec).1 = false)
    ∧ s.root1 ray ≤ s.root2 ray
    ∧ (0 ≤ s.disc ray →
        ((t_min ≤ s.root1 ray ∧ s.root1 ray ≤ t_max →
          (s.hit ray t_min t_max rec).1 = true
            ∧ ((s.hit ray t_min t_max rec).2).t = s.root1 ray)
        ∧ ((s.root1 ray < t_min ∨ t_max < s.root1 ray) →
            ((t_min ≤ s.root2 ray ∧ s.root2 ray ≤ t_max →
              (s.hit ray t_min t_max rec).1 = true
                ∧ ((s.hit ray t_min t_max rec).2).t = s.root2 ray)
            ∧ ((s.root2 ray < t_min ∨ t_max < s.root2 ray) →
                (s.hit ray t_min t_max rec).1 = false)))))
    ∧ ((s.hit ray t_min t_max rec).1 = true →
        ((s.hit ray t_min t_max rec).2).normal =
          (if ((s.hit ray t_min t_max rec).2).front_face then
            ((((s.hit ray t_min t_max rec).2).point.sub s.center).divScalar s.radius)
           else ((((s.hit ray t_min t_max rec).2).point.sub s.center).divScalar
              s.radius).mulScalar (-1))) := by
  refine ⟨?_, Sphere.root1_le_root2 s ray hd, ?_, ?_⟩
  · intro hneg
    rw [sphere_hit_eq]
    cases h : s.tSel ray t_min t_max
    · rfl
    · exact absurd ((Sphere.tSel_eq_some_iff s ray t_min t_max _).mp h).1
        (not_le.mpr hneg)
  · intro hdisc
    constructor
    · rintro ⟨hlo, hhi⟩
      have hsel : s.tSel ray t_min t_max = some (s.root1 ray) :=
        (Sphere.tSel_eq_some_iff s ray t_min t_max _).mpr
          ⟨hdisc, Or.inl ⟨rfl, hlo, hhi⟩⟩
      rw [sphere_hit_eq, hsel]
      exact ⟨rfl, rfl⟩
    · intro h1out
      constructor
      · rintro ⟨hlo, hhi⟩
        have hsel : s.tSel ray t_min t_max = some (s.root2 ray) :=
          (Sphere.tSel_eq_some_iff s ray t_min t_max _).mpr
            ⟨hdisc, Or.inr ⟨rfl, h1out, hlo, hhi⟩⟩
        rw [sphere_hit_eq, hsel]
        exact ⟨rfl, rfl⟩
      · intro h2out
        rw [sphere_hit_eq]
        cases h : s.tSel ray t_min t_max with
        | none => rfl
        | some t =>
          exfalso
          rcases ((Sphere.tSel_eq_some_iff s ray t_min t_max t).mp h).2 with
            ⟨-, hlo, hhi⟩ | ⟨-, -, hlo, hhi⟩
          · rcases h1out with h1 | h1 <;> linarith
          · rcases h2out with h2 | h2 <;> linarith
  · intro hflag
    rw [sphere_hit_eq] at hflag ⊢
    cases h : s.tSel ray t_min t_max with
    | none =>
      rw [h] at hflag
      exact absurd hflag (by simp)
    | some t => rfl

/-- Witness for C2: the sphere of radius 1 at `(0,0,-3)` probed from the
origin along `(0,0,-1)` is hit at the smaller root `t = 2`. -/
theorem sphere_hit_root_selection_witness :
    ((Sphere.mk ⟨0, 0, -3⟩ 1 (Material.lambertian ⟨0, 0, 0⟩)).hit
        ⟨⟨0, 0, 0⟩, ⟨0, 0, -1⟩⟩ 0.001 1000 HitRecord.init).1 = true
    ∧ (((Sphere.mk ⟨0, 0, -3⟩ 1 (Material.lambertian ⟨0, 0, 0⟩)).hit
        ⟨⟨0, 0, 0⟩, ⟨0, 0, -1⟩⟩ 0.001 1000 HitRecord.init).2).t = 2 := by
  have hd : (Ray.mk ⟨0, 0, 0⟩ ⟨0, 0, -1⟩).direction ≠ ⟨0, 0, 0⟩ := by
    intro h
    have := congrArg Vec3.z h
    norm_num at this
  have hdisc1 : (Sphere.mk ⟨0, 0, -3⟩ 1 (Material.lambertian ⟨0, 0, 0⟩)).disc
      ⟨⟨0, 0, 0⟩, ⟨0, 0, -1⟩⟩ = 1 := by
    norm_num [Sphere.disc, Sphere.halfB, Sphere.quadC, Vec3.dot, Vec3.sub,
      Vec3.length_squared]
  have hroot1 : (Sphere.mk ⟨0, 0, -3⟩ 1 (Material.lambertian ⟨0, 0, 0⟩)).root1
      ⟨⟨0, 0, 0⟩, ⟨0, 0, -1⟩⟩ = 2 := by
    rw [Sphere.root1, hdisc1, Real.sqrt_one]
    norm_num [Sphere.halfB, Vec3.dot, Vec3.sub, Vec3.length_squared]
  obtain ⟨-, -, hC, -⟩ := sphere_hit_root_selection
    (Sphere.mk ⟨0, 0, -3⟩ 1 (Material.lambertian ⟨0, 0, 0⟩))
    ⟨⟨0, 0, 0⟩, ⟨0, 0, -1⟩⟩ 0.001 1000 HitRecord.init hd
  obtain ⟨hsel, -⟩ := hC (by rw [hdisc1]; norm_num)
  obtain ⟨hflag, ht⟩ := hsel ⟨by rw [hroot1]; norm_num, by rw [hroot1]; norm_num⟩
  exact ⟨hflag, by rw [ht, hroot1]⟩

/-- Claim C10: whenever `Sphere::hit`, `Triangle::hit` or `Scene::hit`
returns `false`, the caller's `HitRecord` is returned exactly as passed
in: every failure path precedes the record writes. -/
theorem hit_miss_preserves_record (ray : Ray) (t_min t_max : ℝ) (rec : HitRecord) :
    (∀ s : Sphere, (s.hit ray t_min t_max rec).1 = false →
        (s.hit ray t_min t_max rec).2 = rec)
    ∧ (∀ tri : Triangle, (tri.hit ray t_min t_max rec).1 = false →
        (tri.hit ray t_min t_max rec).2 = rec)
    ∧ (∀ sc : Scene, (sc.hit ray t_min t_max rec).1 = false →
        (sc.hit ray t_min t_max rec).2 = rec) := by
  refine ⟨?_, ?_, ?_⟩
  · intro s hb
    exact shape_hit_fail (Shape.sphere s) ray t_min t_max rec hb
  · intro tri hb
    exact shape_hit_fail (Shape.triangle tri) ray t_min t_max rec hb
  · intro sc hb
    rw [scene_hit_eq_fold] at hb ⊢
    have hpres := Fold.false_preserves (fun obj c r => Shape.hit obj ray t_min c r)
      (fun obj r => { r with material := some (Shape.material obj) })
      (fun i c r hfalse => shape_hit_fail i ray t_min c r hfalse)
      sc.objects (false, t_max, rec) hb
    rw [hpres]

/-- Witness for C10: a ray that misses a concrete sphere leaves a marked
record untouched. -/
theorem hit_miss_preserves_record_witness :
    ((Sphere.mk ⟨0, 0, -5⟩ 1 (Material.lambertian ⟨0, 0, 0⟩)).hit
        ⟨⟨0, 0, 0⟩, ⟨1, 0, 0⟩⟩ 0.001 1000 HitRecord.init).1 = false
    ∧ ((Sphere.mk ⟨0, 0, -5⟩ 1 (Material.lambertian ⟨0, 0, 0⟩)).hit
        ⟨⟨0, 0, 0⟩, ⟨1, 0, 0⟩⟩ 0.001 1000 HitRecord.init).2 = HitRecord.init := by
  have hmiss : ((Sphere.mk ⟨0, 0, -5⟩ 1 (Material.lambertian ⟨0, 0, 0⟩)).hit
      ⟨⟨0, 0, 0⟩, ⟨1, 0, 0⟩⟩ 0.001 1000 HitRecord.init).1 = false := by
    rw [Sphere.hit]
    rw [if_pos]
    simp [Vec3.dot, Vec3.sub, Vec3.length_squared]
    norm_num
  exact ⟨hmiss,
    (hit_miss_preserves_record ⟨⟨0, 0, 0⟩, ⟨1, 0, 0⟩⟩ 0.001 1000 HitRecord.init).1
      (Sphere.mk ⟨0, 0, -5⟩ 1 (Material.lambertian ⟨0, 0, 0⟩)) hmiss⟩


/-- Claim C4 counterexample: the `triangle.cpp` snapshot *without* the
`u`-range check (`Triangle.hitAlt`) accepts a ray whose barycentric
coordinate is `u = -1/2`, far outside `[0, 1]` beyond the `1e-8`
tolerance: the claim is false for that shipped variant of
`Triangle::hit`. -/
theorem triangle_hitAlt_accepts_negative_u :
    (Triangle.hitAlt ⟨⟨0, 0, 0⟩, ⟨1, 0, 0⟩, ⟨0, 1, 0⟩, Material.lambertian ⟨0, 0, 0⟩⟩
        ⟨⟨-(1 : ℝ)/2, 1/2, 1⟩, ⟨0, 0, -1⟩⟩ 0.001 1000 HitRecord.init).1 = true
    ∧ Triangle.baryU ⟨⟨0, 0, 0⟩, ⟨1, 0, 0⟩, ⟨0, 1, 0⟩, Material.lambertian ⟨0, 0, 0⟩⟩
        ⟨⟨-(1 : ℝ)/2, 1/2, 1⟩, ⟨0, 0, -1⟩⟩ = -(1/2) := by
  constructor
  · rw [Triangle.hitAlt]
    norm_num [Vec3.cross, Vec3.dot, Vec3.sub]
  · rw [Triangle.baryU]
    norm_num [Vec3.cross, Vec3.dot, Vec3.sub]

/-- Claim C4 (amended): the `triangle.cpp` variant that carries the
`u`-range check (`Triangle.hit`, the snapshot that also defines
`scale`/`translate`) rejects every ray whose barycentric coordinate `u`
lies outside `[0, 1]` beyond the `1e-8` tolerance; the other shipped
snapshot omits the check entirely and accepts such rays. -/
theorem triangle_hit_rejects_u_out_of_range (tri : Triangle) (ray : Ray)
    (t_min t_max : ℝ) (rec : HitRecord)
    (hu : (tri.baryU ray < 0 ∧ |tri.baryU ray| > 1e-8)
        ∨ (tri.baryU ray > 1 ∧ |tri.baryU ray - 1| > 1e-8)) :
    (tri.hit ray t_min t_max rec).1 = false := by
  simp only [Triangle.baryU] at hu
  simp only [Triangle.hit]
  split_ifs <;> rfl

/-- Witness for the amended C4: the checked variant rejects the ray that
`Triangle.hitAlt` wrongly accepts (`u = -1/2`). -/
theorem triangle_hit_rejects_u_witness :
    (Triangle.hit ⟨⟨0, 0, 0⟩, ⟨1, 0, 0⟩, ⟨0, 1, 0⟩, Material.lambertian ⟨0, 0, 0⟩⟩
        ⟨⟨-(1 : ℝ)/2, 1/2, 1⟩, ⟨0, 0, -1⟩⟩ 0.001 1000 HitRecord.init).1 = false :=
  triangle_hit_rejects_u_out_of_range _ _ _ _ _
    (Or.inl (by norm_num [Triangle.baryU, Vec3.cross, Vec3.dot, Vec3.sub, lt_abs]))

/-- Claim C5 (code evaluation): with seed `0x713ef03729ebcec6` and the
default stream, the first call to `next_float()` returns exactly `1.0f`
(the 32-bit output is `0xFFFFFFFF`, which `static_cast<float>` rounds up
to `2³²`), contradicting the documented half-open range `[0, 1)`. -/
theorem pcg32_next_float_reaches_one :
    ((PCG32.init 8160223694559104710 pcgDefaultStream).nextFloat).1 = 1 := by
  have hout : ((PCG32.init 8160223694559104710 pcgDefaultStream).next).1
      = 4294967295 := by decide
  have hf : floatOfUInt32 4294967295 = 4294967296 := by decide
  simp only [PCG32.nextFloat]
  rw [hout, hf]
  norm_num


/-- Sum of indicator values over a list counts the occurrences. -/
theorem sum_map_ite_eq_count (a : ℕ) (l : List ℕ) :
    (l.map fun j => if j = a then 1 else 0).sum = l.count a := by
  induction l with
  | nil => rfl
  | cons x l ih =>
    simp only [List.map_cons, List.sum_cons, List.count_cons, ih]
    by_cases h : x = a <;> simp [h, Nat.add_comm]

/-- Claim C9: for every image size, worker count and interleaving of the
atomic row-cursor (`owner` records which worker received which
`fetch_add` ticket), every pixel index below `width * height` is written
exactly once in total across all workers — in particular by exactly one
worker. -/
theorem scanline_each_pixel_once (width height T : ℕ) (owner : ℕ → Fin T) (p : ℕ)
    (hp : p < width * height) :
    (∑ t : Fin T, (writtenPixels width height T owner t).count p) = 1 := by
  have hw : 0 < width := by
    rcases Nat.eq_zero_or_pos width with h | h
    · subst h; simp at hp
    · exact h
  have hrow : p / width < height := Nat.div_lt_of_lt_mul hp
  have hmap : ∀ j : ℕ, ((List.range width).map fun i => j * width + i).count p
      = if j = p / width then 1 else 0 := by
    intro j
    by_cases hj : j = p / width
    · subst hj
      rw [if_pos rfl]
      apply List.count_eq_one_of_mem
      · exact (List.nodup_range width).map (fun a b hab => by omega)
      · refine List.mem_map.mpr ⟨p % width, List.mem_range.mpr (Nat.mod_lt p hw), ?_⟩
        rw [Nat.mul_comm]
        exact Nat.div_add_mod p width
    · rw [if_neg hj]
      apply List.count_eq_zero_of_not_mem
      intro hmem
      obtain ⟨i, hi, hieq⟩ := List.mem_map.mp hmem
      apply hj
      have hdiv : p / width = j := by
        rw [← hieq, show j * width + i = i + width * j from by ring,
          Nat.add_mul_div_left i j hw, Nat.div_eq_of_lt (List.mem_range.mp hi)]
        exact Nat.zero_add j
      exact hdiv.symm
  have hcount : ∀ t : Fin T, (writtenPixels width height T owner t).count p
      = if owner (p / width) = t then 1 else 0 := by
    intro t
    unfold writtenPixels
    rw [List.count_flatMap]
    have hcongr : List.map (List.count p ∘ fun j => (List.range width).map fun i =>
        j * width + i) (claimedRows height T owner t)
        = List.map (fun j => if j = p / width then 1 else 0)
            (claimedRows height T owner t) := by
      apply List.map_congr_left
      intro j _
      exact hmap j
    rw [hcongr, sum_map_ite_eq_count]
    by_cases ho : owner (p / width) = t
    · rw [if_pos ho]
      apply List.count_eq_one_of_mem
      · exact (List.nodup_range height).filter _
      · exact List.mem_filter.mpr ⟨List.mem_range.mpr hrow, by simp [ho]⟩
    · rw [if_neg ho]
      apply List.count_eq_zero_of_not_mem
      intro hmem
      exact ho (by simpa using (List.mem_filter.mp hmem).2)
  simp only [hcount]
  rw [Finset.sum_ite_eq]
  simp

/-- Witness for C9: a 2×2 image with one worker, pixel 3. -/
theorem scanline_each_pixel_once_witness :
    (3 : ℕ) < 2 * 2
    ∧ (∑ t : Fin 1, (writtenPixels 2 2 1 (fun _ => 0) t).count 3) = 1 :=
  ⟨by norm_num, scanline_each_pixel_once 2 2 1 (fun _ => 0) 3 (by norm_num)⟩

/-- Witness for C1: a scene holding one triangle hit by a concrete ray
reports a hit. -/
theorem scene_hit_closest_witness :
    ((Scene.mk [Shape.triangle ⟨⟨0, 0, 0⟩, ⟨1, 0, 0⟩, ⟨0, 1, 0⟩,
        Material.lambertian ⟨0, 0, 0⟩⟩] []).hit
      ⟨⟨(1 : ℝ)/4, 1/4, 1⟩, ⟨0, 0, -1⟩⟩ 0.001 1000 HitRecord.init).1 = true := by
  have hd : (Ray.mk ⟨(1 : ℝ)/4, 1/4, 1⟩ ⟨0, 0, -1⟩).direction ≠ ⟨0, 0, 0⟩ := by
    intro h
    have := congrArg Vec3.z h
    norm_num at this
  obtain ⟨hiff, -⟩ := scene_hit_closest
    (Scene.mk [Shape.triangle ⟨⟨0, 0, 0⟩, ⟨1, 0, 0⟩, ⟨0, 1, 0⟩,
      Material.lambertian ⟨0, 0, 0⟩⟩] [])
    ⟨⟨(1 : ℝ)/4, 1/4, 1⟩, ⟨0, 0, -1⟩⟩ 0.001 1000 HitRecord.init hd (by norm_num)
  refine hiff.mpr ⟨Shape.triangle ⟨⟨0, 0, 0⟩, ⟨1, 0, 0⟩, ⟨0, 1, 0⟩,
    Material.lambertian ⟨0, 0, 0⟩⟩, List.mem_singleton.mpr rfl, ?_⟩
  simp only [Shape.hit]
  rw [Triangle.hit]
  norm_num [Vec3.cross, Vec3.dot, Vec3.sub]

end Kestrel
